import Mathlib

/-
Shallow embedding of the homotopy-class exploration module of
teb_local_planner (src/homotopy_class_planner.cpp).

Modelling conventions:
* `double` / `long double` values are modelled as real numbers (ℝ), read as
  the exact values the floating-point program approximates.
* External collaborators (the per-trajectory elastic-band optimizer, the
  obstacle shape hierarchy, the costmap oracle, `calculateHSignature` and
  `addAndInitNewTeb`, which live in the header and not in the translated
  source file) are carried as function-valued data or parameters.
* `std::vector` mutation loops become structural recursions threading the
  container; `erase` becomes skipping the element / `List.eraseIdx`.
-/

namespace TebHcp

/-- An H-signature value: `std::complex<long double>` modelled as an exact
pair of reals. -/
structure HSig where
  re : ℝ
  im : ℝ

/-- One pose of a candidate trajectory (an entry of `teb().poses()`). -/
structure TrajPose where
  x : ℝ
  y : ℝ
  theta : ℝ

instance : Inhabited TrajPose := ⟨⟨0, 0, 0⟩⟩

/-- A trajectory candidate (`TebOptimalPlannerPtr`).  The elastic-band
optimizer behind it is an external collaborator, so its observable interface
(`getCurrentCost`, `teb().detectDetoursBackwards`, `teb().poses()`,
`teb().findClosestTrajectoryPose`, `getVelocityCommand`) is carried as
data. -/
structure TebCandidate where
  costComponents : List ℝ
  detectDetoursBackwards : ℝ → Bool
  poses : List TrajPose
  findClosestTrajectoryPose : ℝ × ℝ → Nat
  velocityCommand : ℝ × ℝ

/-- `getCurrentCost().sum()`: the summed cost components of a candidate. -/
def tebCost (t : TebCandidate) : ℝ := t.costComponents.sum

/-- Obstacle capability record (the polymorphic obstacle hierarchy is an
external collaborator; only the capabilities used by the translated source
appear). -/
structure Obstacle where
  getCentroid : ℝ × ℝ
  getMinimumDistance : ℝ × ℝ → ℝ
  checkLineIntersection : ℝ × ℝ → ℝ × ℝ → ℝ → Bool
  checkCollision : ℝ × ℝ → ℝ → Bool

/-- The near-duplicate test of `addNewHSignatureIfNew` (lines 451-457):
both the real and the imaginary part differ by at most `threshold`. -/
noncomputable def hSigClose (a b : HSig) (threshold : ℝ) : Bool :=
  decide (|a.re - b.re| ≤ threshold) && decide (|a.im - b.im| ≤ threshold)

/-- `HomotopyClassPlanner::addNewHSignatureIfNew` (lines 448-462): linear
scan over the registry; on a near-duplicate return `false` and leave the
registry unchanged, otherwise append `H` and return `true`.  The result is
the pair (updated registry, returned flag). -/
noncomputable def addNewHSignatureIfNew (sigs : List HSig) (H : HSig) (threshold : ℝ) :
    List HSig × Bool :=
  if sigs.any (fun s => hSigClose s H threshold) then (sigs, false)
  else (sigs ++ [H], true)

/-- The registry obtained by registering the signatures `hs` in order with a
fixed `threshold`, starting from an empty registry. -/
noncomputable def runRegistry (hs : List HSig) (threshold : ℝ) : List HSig :=
  hs.foldl (fun acc H => (addNewHSignatureIfNew acc H threshold).1) []

/-- Loop of `HomotopyClassPlanner::selectBestTeb` (lines 612-629).
`minCost` starts at `DBL_MAX`, modelled as `⊤`; a candidate replaces the
stored best exactly when its summed cost is strictly below `minCost`. -/
noncomputable def selectBestTebAux : List TebCandidate → Option TebCandidate → WithTop ℝ →
    Option TebCandidate
  | [], best, _ => best
  | t :: rest, best, minCost =>
    if (tebCost t : WithTop ℝ) < minCost then
      selectBestTebAux rest (some t) (tebCost t)
    else
      selectBestTebAux rest best minCost

/-- `HomotopyClassPlanner::selectBestTeb` restricted to the pool: the stored
`best_teb_` after the scan (reset to null before the scan). -/
noncomputable def selectBestTebList (tebs : List TebCandidate) : Option TebCandidate :=
  selectBestTebAux tebs none ⊤

/-- Loop of `HomotopyClassPlanner::deleteTebDetours` (lines 598-609).
`kept` are the candidates already passed over; the size test
`tebs_.size() > 1` sees the container as it is at that moment, i.e.
`kept.length + 1 + rest.length`. -/
def deleteTebDetoursAux (threshold : ℝ) :
    List TebCandidate → List TebCandidate → List TebCandidate
  | kept, [] => kept
  | kept, t :: rest =>
    if decide (kept.length + 1 + rest.length > 1) &&
        t.detectDetoursBackwards threshold then
      deleteTebDetoursAux threshold kept rest
    else
      deleteTebDetoursAux threshold (kept ++ [t]) rest

/-- `HomotopyClassPlanner::deleteTebDetours` on the candidate pool. -/
def deleteTebDetoursList (threshold : ℝ) (tebs : List TebCandidate) :
    List TebCandidate :=
  deleteTebDetoursAux threshold [] tebs

/-- `HomotopyClassPlanner::DepthFirst` (lines 394-444) over a graph given by
its adjacency map (vertex descriptors are indices, adjacency in iteration
order).  External pieces are parameters: `hsigOfPath` stands for
`calculateHSignature` applied to the positions along a path (a header
template, outside the translated source), `mkTeb` for `addAndInitNewTeb`
with the start/goal orientations of the call site.  The state is the pair
(`tebs_`, `h_signatures_`).  The source recursion terminates because
`visited` grows along simple paths; here a fuel argument bounds the depth,
and every caller passes fuel exceeding the vertex count, which the source
recursion never exceeds.  The first adjacency loop fires its body only for
an unvisited goal vertex; the second loop recurses on unvisited non-goal
vertices in adjacency order. -/
noncomputable def DepthFirst (adj : Nat → List Nat) (goal : Nat) (maxClasses : ℤ)
    (hsigOfPath : List Nat → HSig) (mkTeb : List Nat → TebCandidate) :
    Nat → List Nat → List TebCandidate × List HSig →
    List TebCandidate × List HSig
  | 0, _, st => st
  | fuel + 1, visited, st =>
    if (st.1.length : ℤ) ≥ maxClasses then st
    else
      let back := visited.getLastD 0
      let st1 :=
        if goal ∈ adj back ∧ goal ∉ visited then
          if (addNewHSignatureIfNew st.2 (hsigOfPath (visited ++ [goal]))
              (1/10)).2 then
            (st.1 ++ [mkTeb (visited ++ [goal])],
              (addNewHSignatureIfNew st.2 (hsigOfPath (visited ++ [goal]))
                (1/10)).1)
          else
            (st.1,
              (addNewHSignatureIfNew st.2 (hsigOfPath (visited ++ [goal]))
                (1/10)).1)
        else st
      (adj back).foldl
        (fun st' v =>
          if v ∈ visited ∨ v = goal then st'
          else DepthFirst adj goal maxClasses hsigOfPath mkTeb fuel
            (visited ++ [v]) st')
        st1

/-- The near-collision test of `renewAndAnalyzeOldTebs` (lines 494-504): some
obstacle's distance to the trajectory pose closest to its centroid is below
the fixed clearance `0.03`.  (The C++ loop scans all obstacles setting a
flag; the net effect is this `any`.) -/
noncomputable def tebCloseToObstacle (obstacles : List Obstacle) (t : TebCandidate) : Bool :=
  obstacles.any fun o =>
    let p := t.poses.getD (t.findClosestTrajectoryPose o.getCentroid) default
    decide (o.getMinimumDistance (p.x, p.y) < 3/100)

/-- First loop of `renewAndAnalyzeOldTebs` (lines 481-516): walk the pool,
erasing backwards detours (only when `delete_detours` is set and more than
one candidate is in the container at that moment) and near-collision
candidates, and collecting (candidate, H-signature) pairs for the
survivors.  `acc` holds the pairs collected so far; the survivors in `tebs_`
are exactly `acc.map Prod.fst`, so `tebs_.size()` at the test is
`acc.length + 1 + rest.length`.  `cosThreshold` is
`cos(cfg->hcp.obstacle_heading_threshold)`; `hsigOfTeb` stands for the
header template `calculateHSignature` over the candidate's poses and the
obstacle set. -/
noncomputable def renewCollect (deleteDetours : Bool) (cosThreshold : ℝ)
    (hsigOfTeb : TebCandidate → HSig) (obstacles : List Obstacle) :
    List (TebCandidate × HSig) → List TebCandidate →
    List (TebCandidate × HSig)
  | acc, [] => acc
  | acc, t :: rest =>
    if deleteDetours && decide (acc.length + 1 + rest.length > 1) &&
        t.detectDetoursBackwards cosThreshold then
      renewCollect deleteDetours cosThreshold hsigOfTeb obstacles acc rest
    else if tebCloseToObstacle obstacles t then
      renewCollect deleteDetours cosThreshold hsigOfTeb obstacles acc rest
    else
      renewCollect deleteDetours cosThreshold hsigOfTeb obstacles
        (acc ++ [(t, hsigOfTeb t)]) rest

/-- The helper `compareH` (line 468): two signatures agree when both parts
differ by strictly less than the fixed `0.1`. -/
noncomputable def compareH (a b : HSig) : Bool :=
  decide (|a.re - b.re| < 1/10) && decide (|a.im - b.im| < 1/10)

/-- Second loop of `renewAndAnalyzeOldTebs` (lines 519-538): for the
candidate at index `i`, find the first candidate with an equal signature;
if it is a different one, erase the costlier of the two (keeping `i` in
place), else advance `i`.  The pool `tebs_` mirrors `Prod.fst` of this list
throughout.  The loop performs at most `2 * length` steps (each step shrinks
the list or advances `i`), so the fuel passed by the caller is never
exhausted. -/
noncomputable def renewDedup : Nat → List (TebCandidate × HSig) → Nat →
    List (TebCandidate × HSig)
  | 0, cands, _ => cands
  | fuel + 1, cands, i =>
    if h : i < cands.length then
      match cands.findIdx? (fun c => compareH c.2 (cands.get ⟨i, h⟩).2) with
      | some j =>
        if j ≠ i then
          match cands.get? j with
          | some cj =>
            if tebCost (cands.get ⟨i, h⟩).1 < tebCost cj.1 then
              renewDedup fuel (cands.eraseIdx j) i
            else
              renewDedup fuel (cands.eraseIdx i) i
          | none => renewDedup fuel cands (i + 1)
        else renewDedup fuel cands (i + 1)
      | none => renewDedup fuel cands (i + 1)
    else cands

/-- Third loop of `renewAndAnalyzeOldTebs` (lines 540-548): re-register each
surviving signature with `cfg->hcp.h_signature_threshold`; when the
defensive re-registration reports a duplicate, the offending candidate is
erased from the pool (the pair list itself is only iterated).  Returns the
surviving pool and the rebuilt registry. -/
noncomputable def renewRegister (threshold : ℝ) :
    List (TebCandidate × HSig) → List HSig → List TebCandidate × List HSig
  | [], sigs => ([], sigs)
  | (t, H) :: rest, sigs =>
    if (addNewHSignatureIfNew sigs H threshold).2 then
      ((t :: (renewRegister threshold rest
          (addNewHSignatureIfNew sigs H threshold).1).1),
        (renewRegister threshold rest
          (addNewHSignatureIfNew sigs H threshold).1).2)
    else
      renewRegister threshold rest (addNewHSignatureIfNew sigs H threshold).1

/-- `HomotopyClassPlanner::renewAndAnalyzeOldTebs` (lines 471-550): clears
`h_signatures_`, then runs the three loops above.  Returns the new pool and
the rebuilt registry. -/
noncomputable def renewAndAnalyzeOldTebs (deleteDetours : Bool)
    (obstacleHeadingThreshold : ℝ) (hSignatureThreshold : ℝ)
    (hsigOfTeb : TebCandidate → HSig) (obstacles : List Obstacle)
    (tebs : List TebCandidate) : List TebCandidate × List HSig :=
  renewRegister hSignatureThreshold
    (renewDedup
      (2 * (renewCollect deleteDetours (Real.cos obstacleHeadingThreshold)
        hsigOfTeb obstacles [] tebs).length + 1)
      (renewCollect deleteDetours (Real.cos obstacleHeadingThreshold)
        hsigOfTeb obstacles [] tebs)
      0)
    []

/-- The planner state carried across the member functions: the candidate
pool `tebs_`, the signature registry `h_signatures_`, the stored best
candidate `best_teb_` and the `initialized_` flag. -/
structure PlannerState where
  initialized : Bool
  tebs : List TebCandidate
  h_signatures : List HSig
  best_teb : Option TebCandidate

/-- `HomotopyClassPlanner::selectBestTeb` (lines 612-629): resets and then
stores `best_teb_` and also returns it. -/
noncomputable def selectBestTeb (s : PlannerState) : PlannerState × Option TebCandidate :=
  let b := selectBestTebList s.tebs
  ({ s with best_teb := b }, b)

/-- `HomotopyClassPlanner::getVelocityCommand` (lines 133-140): zero vector
when no best candidate is stored. -/
def getVelocityCommand (s : PlannerState) : ℝ × ℝ :=
  match s.best_teb with
  | none => (0, 0)
  | some t => t.velocityCommand

/-- `HomotopyClassPlanner::isTrajectoryFeasible` (lines 631-646).  The
costmap oracle `footprintCost` is an external collaborator passed as a
function of (x, y, theta, footprint, inscribed radius, circumscribed
radius).  An out-of-range or negative `lookAhead` is clamped to the last
pose index.  (For an empty pose sequence the C++ comparison
`i <= look_ahead_idx` mixes unsigned and signed operands and is undefined;
the theorems about this function assume at least one pose.) -/
def clampedLookAhead (t : TebCandidate) (lookAhead : ℤ) : ℤ :=
  if lookAhead < 0 ∨ (t.poses.length : ℤ) ≤ lookAhead then
    (t.poses.length : ℤ) - 1
  else lookAhead

noncomputable def isTrajectoryFeasible
    (footprintCost : ℝ → ℝ → ℝ → List (ℝ × ℝ × ℝ) → ℝ → ℝ → ℝ)
    (footprint : List (ℝ × ℝ × ℝ)) (inscribedRadius circumscribedRadius : ℝ)
    (lookAhead : ℤ) (s : PlannerState) : Bool :=
  match s.best_teb with
  | none => false
  | some t =>
    (List.range ((clampedLookAhead t lookAhead).toNat + 1)).all fun i =>
      let p := t.poses.getD i default
      !decide (footprintCost p.x p.y p.theta footprint inscribedRadius
          circumscribedRadius < 0)

/-! ### Planar geometry (Eigen::Vector2d operations used by the graph
builders) -/

def vadd (a b : ℝ × ℝ) : ℝ × ℝ := (a.1 + b.1, a.2 + b.2)

def vsub (a b : ℝ × ℝ) : ℝ × ℝ := (a.1 - b.1, a.2 - b.2)

def vdot (a b : ℝ × ℝ) : ℝ := a.1 * b.1 + a.2 * b.2

def vsmul (k : ℝ) (v : ℝ × ℝ) : ℝ × ℝ := (k * v.1, k * v.2)

/-- `Eigen .norm()`. -/
noncomputable def vnorm (v : ℝ × ℝ) : ℝ := Real.sqrt (v.1 * v.1 + v.2 * v.2)

/-- `Eigen .normalize()` / `.normalized()`: division by the norm.  (On the
zero vector the C++ result is NaN; the builders below never normalize a zero
vector in the situations the theorems below consider.) -/
noncomputable def vnormalize (v : ℝ × ℝ) : ℝ × ℝ :=
  (v.1 / vnorm v, v.2 / vnorm v)

/-- `PoseSE2`: planar position plus heading. -/
structure PoseSE2 where
  x : ℝ
  y : ℝ
  theta : ℝ

def posOf (p : PoseSE2) : ℝ × ℝ := (p.x, p.y)

/-! ### Deterministic keypoint graph builder (`createGraph`,
lines 167-281) -/

/-- The skip test of the vertex loop (lines 195-199): the obstacle is
dropped when `start2obst.dot(diff)/dist < 0.1` with `diff` the normalized
start-to-goal direction and `dist = start2obst.norm()`.  When `dist = 0`
the C++ quotient is NaN and the comparison is false, so the obstacle is
kept; the first conjunct reproduces that. -/
def obstacleBehindStart (startPos diffUnit c : ℝ × ℝ) : Prop :=
  vnorm (vsub c startPos) ≠ 0 ∧
    vdot (vsub c startPos) diffUnit / vnorm (vsub c startPos) < 1/10

noncomputable instance (startPos diffUnit c : ℝ × ℝ) :
    Decidable (obstacleBehindStart startPos diffUnit c) := by
  unfold obstacleBehindStart
  infer_instance

/-- Keypoint vertices the vertex loop (lines 191-215) inserts for one
obstacle centroid: none when the obstacle is behind the start, else the two
points centroid ± the clearance-scaled normal. -/
noncomputable def obstacleKeypoints (startPos diffUnit normalScaled c : ℝ × ℝ) :
    List (ℝ × ℝ) :=
  if obstacleBehindStart startPos diffUnit c then []
  else [vadd c normalScaled, vsub c normalScaled]

/-- The normalized start-to-goal direction `diff` of `createGraph`. -/
noncomputable def graphDiffUnit (start goal : PoseSE2) : ℝ × ℝ :=
  vnormalize (vsub (posOf goal) (posOf start))

/-- The clearance-scaled normal of `createGraph` (lines 178-180):
`normalize((-diff.y, diff.x)) * dist_to_obst`. -/
noncomputable def graphNormal (start goal : PoseSE2) (distToObst : ℝ) : ℝ × ℝ :=
  vsmul distToObst
    (vnormalize (-(vsub (posOf goal) (posOf start)).2,
      (vsub (posOf goal) (posOf start)).1))

/-- The keypoints `createGraph` inserts for one obstacle centroid. -/
noncomputable def createGraphKeypoints (start goal : PoseSE2) (distToObst : ℝ)
    (c : ℝ × ℝ) : List (ℝ × ℝ) :=
  obstacleKeypoints (posOf start) (graphDiffUnit start goal)
    (graphNormal start goal distToObst) c

/-- The vertex list `createGraph` builds (lines 170-218): empty when start
and goal are within the goal tolerance (early return after `clearGraph`),
else start, the per-obstacle keypoints in obstacle order, then goal. -/
noncomputable def createGraphVertices (xyGoalTolerance : ℝ)
    (start goal : PoseSE2) (distToObst : ℝ) (centroids : List (ℝ × ℝ)) :
    List (ℝ × ℝ) :=
  if vnorm (vsub (posOf goal) (posOf start)) < xyGoalTolerance then []
  else
    posOf start ::
      (centroids.flatMap (createGraphKeypoints start goal distToObst) ++
        [posOf goal])

/-- Nearest-obstacle keypoint tracking of the vertex loop (lines 187-213):
walk the centroids in insertion order with `idx` the vertex index the next
keypoint pair would receive; skipped obstacles insert no vertices; a
strictly smaller centroid distance replaces the stored pair.  `none` plays
`min_dist = DBL_MAX`. -/
noncomputable def detNearestAux (startPos diffUnit : ℝ × ℝ) :
    List (ℝ × ℝ) → Nat → Option (ℝ × Nat × Nat) → Option (ℝ × Nat × Nat)
  | [], _, acc => acc
  | c :: rest, idx, acc =>
    if obstacleBehindStart startPos diffUnit c then
      detNearestAux startPos diffUnit rest idx acc
    else
      let dist := vnorm (vsub c startPos)
      let acc' :=
        match acc with
        | none => some (dist, idx, idx + 1)
        | some (m, u, v) =>
          if dist < m then some (dist, idx, idx + 1) else some (m, u, v)
      detNearestAux startPos diffUnit rest (idx + 2) acc'

/-- The start-orientation check of the edge loop (lines 238-252), fired for
edges from the start vertex to one of the nearest obstacle's keypoints: the
edge is blocked when the angle between the start orientation and the
direction to the keypoint exceeds the heading threshold. -/
noncomputable def startHeadingBlocked (V : List (ℝ × ℝ)) (cosThreshold : ℝ)
    (nearest : Option (ℝ × Nat × Nat)) (start : PoseSE2) (j : Nat) : Bool :=
  match nearest with
  | some (_, u, v) =>
    (decide (j = u) || decide (j = v)) &&
      decide (vdot (Real.cos start.theta, Real.sin start.theta)
        (vnormalize (vsub (V.getD j (0, 0)) (posOf start))) < cosThreshold)
  | none => false

/-- Edge admissibility of the edge loop of `createGraph` (lines 220-274):
no self loop; direction from `i` to `j` must not deviate from the overall
direction beyond the heading threshold (`dot ≤ cos θ` skips); when heading
limiting is on and `i` is the start vertex, an edge toward a nearest
obstacle keypoint must also respect the start orientation; the segment must
not intersect any obstacle at half clearance. -/
noncomputable def detEdgeAllowed (V : List (ℝ × ℝ)) (diffUnit : ℝ × ℝ)
    (cosThreshold : ℝ) (limitHeading : Bool)
    (nearest : Option (ℝ × Nat × Nat)) (start : PoseSE2) (distToObst : ℝ)
    (obstacles : List Obstacle) (i j : Nat) : Bool :=
  let pi := V.getD i (0, 0)
  let pj := V.getD j (0, 0)
  if i = j then false
  else if vdot (vnormalize (vsub pj pi)) diffUnit ≤ cosThreshold then false
  else if limitHeading && decide (i = 0) &&
      startHeadingBlocked V cosThreshold nearest start j then false
  else if obstacles.any
      (fun o => o.checkLineIntersection pi pj (distToObst / 2)) then false
  else true

/-- Adjacency of the built graph: the edge loop runs `it_i` over every
vertex but the last (the goal gets no outgoing edges) and `it_j` over all
vertices in order. -/
noncomputable def detAdjacency (V : List (ℝ × ℝ)) (diffUnit : ℝ × ℝ)
    (cosThreshold : ℝ) (limitHeading : Bool)
    (nearest : Option (ℝ × Nat × Nat)) (start : PoseSE2) (distToObst : ℝ)
    (obstacles : List Obstacle) (i : Nat) : List Nat :=
  if i + 1 < V.length then
    (List.range V.length).filter
      (fun j => detEdgeAllowed V diffUnit cosThreshold limitHeading nearest
        start distToObst obstacles i j)
  else []

/-- The configuration values the translated source reads
(`cfg_->goal_tolerance`, `cfg_->obstacles`, `cfg_->hcp`, `cfg_->optim`). -/
structure TebConfig where
  xy_goal_tolerance : ℝ
  min_obstacle_dist : ℝ
  obstacle_heading_threshold : ℝ
  h_signature_threshold : ℝ
  max_number_classes : ℤ
  simple_exploration : Bool
  roadmap_graph_no_samples : Nat
  roadmap_graph_area_width : ℝ
  enable_multithreading : Bool
  no_inner_iterations : Nat
  no_outer_iterations : Nat

/-- The external-collaborator operations the planner calls but whose code is
outside the translated source: the elastic-band optimizer methods and the
header templates `calculateHSignature` (over a pose sequence of a candidate
and over the positions along a graph path) and `addAndInitNewTeb` (build a
candidate along given waypoints with the start/goal orientations). -/
structure ExternalEnv where
  updateAndPruneTEB : Option PoseSE2 → Option PoseSE2 → TebCandidate →
    TebCandidate
  setVelocityStart : ℝ × ℝ → TebCandidate → TebCandidate
  optimizeTEB : Nat → Nat → TebCandidate → TebCandidate
  hSignatureOfTeb : TebCandidate → HSig
  hSignatureOfPoints : List (ℝ × ℝ) → HSig
  addAndInitNewTeb : List (ℝ × ℝ) → ℝ → ℝ → TebCandidate

/-- `HomotopyClassPlanner::createGraph` (lines 167-281): early return when
start and goal are within the goal tolerance; otherwise build the keypoint
vertex list and the admissible edges, then run `DepthFirst` from the start
vertex with `visited = [start]`.  The goal is the last vertex.  The fuel
`V.length + 1` exceeds the depth of the source recursion, which pushes a
distinct vertex per level. -/
noncomputable def createGraph (cfg : TebConfig) (env : ExternalEnv)
    (obstacles : List Obstacle) (start goal : PoseSE2) (distToObst : ℝ)
    (limitHeading : Bool) (s : PlannerState) : PlannerState :=
  if vnorm (vsub (posOf goal) (posOf start)) < cfg.xy_goal_tolerance then s
  else
    let diffUnit := graphDiffUnit start goal
    let cents := obstacles.map (fun o => o.getCentroid)
    let V := createGraphVertices cfg.xy_goal_tolerance start goal distToObst
      cents
    let nearest := if limitHeading then
        detNearestAux (posOf start) diffUnit cents 1 none
      else none
    let adj := detAdjacency V diffUnit
      (Real.cos cfg.obstacle_heading_threshold) limitHeading nearest start
      distToObst obstacles
    let res := DepthFirst adj (V.length - 1) cfg.max_number_classes
      (fun path => env.hSignatureOfPoints (path.map (fun v => V.getD v (0, 0))))
      (fun path => env.addAndInitNewTeb (path.map (fun v => V.getD v (0, 0)))
        start.theta goal.theta)
      (V.length + 1) [0] (s.tebs, s.h_signatures)
    { s with tebs := res.1, h_signatures := res.2 }

/-- The rejection-sampling loop of `createProbRoadmapGraph` (lines 323-341):
draw transformed samples from the pseudo-random stream `raw` (the successive
outputs of the two uniform distributions, as a pair per draw, transformed
into the rotated rectangle) until one is collision-free at clearance
`distToObst`.  The C++ loop retries unboundedly (`while ros::ok()`); the
fuel caps the retries, returning the last draw when exhausted.  Returns the
sample and the next stream position. -/
noncomputable def sampleFreePoint (obstacles : List Obstacle) (distToObst : ℝ)
    (transform : ℝ × ℝ → ℝ × ℝ) (raw : Nat → ℝ × ℝ) :
    Nat → Nat → (ℝ × ℝ) × Nat
  | 0, k => (transform (raw k), k + 1)
  | fuel + 1, k =>
    let p := transform (raw k)
    if obstacles.any (fun o => o.checkCollision p distToObst) then
      sampleFreePoint obstacles distToObst transform raw fuel (k + 1)
    else (p, k + 1)

/-- The sampling loop of `createProbRoadmapGraph` (lines 320-346): insert
`count` collision-free samples in order, threading the stream position. -/
noncomputable def roadmapSamples (obstacles : List Obstacle) (distToObst : ℝ)
    (transform : ℝ × ℝ → ℝ × ℝ) (raw : Nat → ℝ × ℝ) (retryFuel : Nat) :
    Nat → Nat → List (ℝ × ℝ)
  | 0, _ => []
  | count + 1, k =>
    let r := sampleFreePoint obstacles distToObst transform raw retryFuel k
    r.1 :: roadmapSamples obstacles distToObst transform raw retryFuel count
      r.2

/-- `HomotopyClassPlanner::createProbRoadmapGraph` (lines 284-391): early
return within goal tolerance; otherwise sample `roadmap_graph_no_samples`
collision-free vertices inside the rectangle of length `start-goal distance`
and width `roadmap_graph_area_width` aligned to the start-to-goal axis
(rotation by `phi = atan2(diff.y, diff.x)`, origin at the bottom-left
corner), then connect edges with the same direction and collision rules as
the deterministic builder but with no start-heading limiting, and run
`DepthFirst`.  The `limitHeading` parameter of the source is unused in its
body.  `raw k` stands for the `k`-th pair of outputs of the two uniform
distributions driven by `rnd_generator_`. -/
noncomputable def createProbRoadmapGraph (cfg : TebConfig) (env : ExternalEnv)
    (obstacles : List Obstacle) (raw : Nat → ℝ × ℝ) (retryFuel : Nat)
    (start goal : PoseSE2) (distToObst : ℝ) (_limitHeading : Bool)
    (s : PlannerState) : PlannerState :=
  let diff := vsub (posOf goal) (posOf start)
  if vnorm diff < cfg.xy_goal_tolerance then s
  else
    let normalUnit := vnormalize (-diff.2, diff.1)
    let phi := Complex.arg (Complex.mk diff.1 diff.2)
    let areaOrigin := vsub (posOf start)
      (vsmul (cfg.roadmap_graph_area_width / 2) normalUnit)
    let transform := fun r : ℝ × ℝ =>
      vadd areaOrigin
        (Real.cos phi * r.1 - Real.sin phi * r.2,
          Real.sin phi * r.1 + Real.cos phi * r.2)
    let samples := roadmapSamples obstacles distToObst transform raw retryFuel
      cfg.roadmap_graph_no_samples 0
    let V := posOf start :: (samples ++ [posOf goal])
    let diffUnit := vnormalize diff
    let adj := detAdjacency V diffUnit
      (Real.cos cfg.obstacle_heading_threshold) false none start distToObst
      obstacles
    let res := DepthFirst adj (V.length - 1) cfg.max_number_classes
      (fun path => env.hSignatureOfPoints (path.map (fun v => V.getD v (0, 0))))
      (fun path => env.addAndInitNewTeb (path.map (fun v => V.getD v (0, 0)))
        start.theta goal.theta)
      (V.length + 1) [0] (s.tebs, s.h_signatures)
    { s with tebs := res.1, h_signatures := res.2 }

/-- `HomotopyClassPlanner::exploreHomotopyClassesAndInitTebs`
(lines 553-563): re-analyze the old candidates with `delete_detours =
false`, then run the graph builder selected by `simple_exploration`, with
heading limiting enabled exactly when the heading threshold is nonzero.
The `hpThreshold` parameter of the source signature is unused in its
body. -/
noncomputable def exploreHomotopyClassesAndInitTebs (cfg : TebConfig)
    (env : ExternalEnv) (obstacles : List Obstacle) (raw : Nat → ℝ × ℝ)
    (retryFuel : Nat) (start goal : PoseSE2) (distToObst : ℝ)
    (_hpThreshold : ℝ) (s : PlannerState) : PlannerState :=
  let r := renewAndAnalyzeOldTebs false cfg.obstacle_heading_threshold
    cfg.h_signature_threshold env.hSignatureOfTeb obstacles s.tebs
  let s1 := { s with tebs := r.1, h_signatures := r.2 }
  if cfg.simple_exploration then
    createGraph cfg env obstacles start goal distToObst
      (decide (cfg.obstacle_heading_threshold ≠ 0)) s1
  else
    createProbRoadmapGraph cfg env obstacles raw retryFuel start goal
      distToObst (decide (cfg.obstacle_heading_threshold ≠ 0)) s1

/-- `HomotopyClassPlanner::updateAllTEBs` (lines 566-574): update every
candidate in place with the new start, goal and start velocity. -/
def updateAllTEBs (env : ExternalEnv) (start goal : Option PoseSE2)
    (startVelocity : Option (ℝ × ℝ)) (tebs : List TebCandidate) :
    List TebCandidate :=
  tebs.map fun t =>
    match startVelocity with
    | some v => env.setVelocityStart v (env.updateAndPruneTEB start goal t)
    | none => env.updateAndPruneTEB start goal t

/-- `HomotopyClassPlanner::optimizeAllTEBs` (lines 577-596): optimize every
candidate with the given inner/outer iteration counts and cost computation
enabled.  The multithreaded branch runs the same per-candidate optimization
on independent candidates and joins before returning, so both branches
produce this map. -/
def optimizeAllTEBs (env : ExternalEnv) (iterInnerloop iterOuterloop : Nat)
    (tebs : List TebCandidate) : List TebCandidate :=
  tebs.map (env.optimizeTEB iterInnerloop iterOuterloop)

/-- `HomotopyClassPlanner::plan` (lines 115-131): assert initialization
(modelled as `none` on violation), update all candidates, explore (with
`dist_to_obst = cfg.obstacles.min_obstacle_dist` and the unused
`hp_threshold = 0.1`), optimize, select the best, delete detours with
threshold `0.0`, and return `true`.  The `freeGoalVel` argument is unused
in the source body. -/
noncomputable def plan (cfg : TebConfig) (env : ExternalEnv)
    (obstacles : List Obstacle) (raw : Nat → ℝ × ℝ) (retryFuel : Nat)
    (start goal : PoseSE2) (startVelocity : ℝ × ℝ) (_freeGoalVel : Bool)
    (s : PlannerState) : Option (PlannerState × Bool) :=
  if s.initialized then
    let s1 := { s with
      tebs := updateAllTEBs env (some start) (some goal) (some startVelocity)
        s.tebs }
    let s2 := exploreHomotopyClassesAndInitTebs cfg env obstacles raw
      retryFuel start goal cfg.min_obstacle_dist (1/10) s1
    let s3 := { s2 with
      tebs := optimizeAllTEBs env cfg.no_inner_iterations
        cfg.no_outer_iterations s2.tebs }
    let s4 := (selectBestTeb s3).1
    let s5 := { s4 with tebs := deleteTebDetoursList 0 s4.tebs }
    some (s5, true)
  else none

/-! ### Concrete instances used by witness theorems -/

/-- A trivial candidate that never reports a detour. -/
def demoTeb : TebCandidate := ⟨[], fun _ => false, [], fun _ => 0, (0, 0)⟩

/-- A candidate that reports a backwards detour at every threshold. -/
def demoDetourTeb : TebCandidate := ⟨[], fun _ => true, [], fun _ => 0, (0, 0)⟩

/-- A trivial external environment: identity optimizer operations, constant
zero signatures. -/
def demoEnv : ExternalEnv :=
  ⟨fun _ _ t => t, fun _ t => t, fun _ _ t => t, fun _ => ⟨0, 0⟩,
    fun _ => ⟨0, 0⟩, fun _ _ _ => demoTeb⟩

/-- A concrete configuration with one allowed class and deterministic
exploration. -/
noncomputable def demoCfg : TebConfig :=
  ⟨1, 1, 0, 1/10, 1, true, 0, 1, false, 1, 1⟩

/-! ### Registry lemmas -/

lemma any_hSigClose_iff (sigs : List HSig) (H : HSig) (threshold : ℝ) :
    (sigs.any fun s => hSigClose s H threshold) = true ↔
      ∃ s ∈ sigs, |s.re - H.re| ≤ threshold ∧ |s.im - H.im| ≤ threshold := by
  simp [List.any_eq_true, hSigClose]

/-- The mutual-separation relation of the registry invariant: real parts or
imaginary parts differ by more than the threshold. -/
def hSigSeparated (threshold : ℝ) (a b : HSig) : Prop :=
  threshold < |a.re - b.re| ∨ threshold < |a.im - b.im|

lemma hSigSeparated_of_not_close {threshold : ℝ} {a b : HSig}
    (h : ¬(|a.re - b.re| ≤ threshold ∧ |a.im - b.im| ≤ threshold)) :
    hSigSeparated threshold a b := by
  unfold hSigSeparated
  rcases not_and_or.mp h with h1 | h1
  · exact Or.inl (lt_of_not_le h1)
  · exact Or.inr (lt_of_not_le h1)

lemma addNewHSignatureIfNew_pairwise (acc : List HSig) (H : HSig)
    (threshold : ℝ) (hp : acc.Pairwise (hSigSeparated threshold)) :
    ((addNewHSignatureIfNew acc H threshold).1).Pairwise
      (hSigSeparated threshold) := by
  unfold addNewHSignatureIfNew
  rcases hany : (acc.any fun s => hSigClose s H threshold) with _ | _
  · rw [if_neg (by simp)]
    rw [List.pairwise_append]
    refine ⟨hp, List.pairwise_singleton _ _, ?_⟩
    intro a ha b hb
    rw [List.mem_singleton] at hb
    rw [hb]
    have hclose := (any_hSigClose_iff acc H threshold).not.mp (by simp [hany])
    push_neg at hclose
    rcases lt_or_le threshold |a.re - H.re| with h1 | h1
    · exact Or.inl h1
    · exact Or.inr (hclose a ha h1)
  · rw [if_pos rfl]
    exact hp

lemma runRegistry_fold_pairwise (hs : List HSig) (threshold : ℝ) :
    ∀ acc : List HSig, acc.Pairwise (hSigSeparated threshold) →
      (hs.foldl (fun acc H => (addNewHSignatureIfNew acc H threshold).1)
        acc).Pairwise (hSigSeparated threshold) := by
  induction hs with
  | nil => intro acc hp; simpa using hp
  | cons H rest ih =>
    intro acc hp
    exact ih _ (addNewHSignatureIfNew_pairwise acc H threshold hp)

/-! ### Selection lemmas -/

lemma selectBestTebAux_stop (l : List TebCandidate) :
    ∀ (best : Option TebCandidate) (c : WithTop ℝ),
      (∀ t ∈ l, ¬((tebCost t : WithTop ℝ) < c)) →
      selectBestTebAux l best c = best := by
  induction l with
  | nil => intro best c _; rfl
  | cons t rest ih =>
    intro best c h
    unfold selectBestTebAux
    rw [if_neg (h t (List.mem_cons_self t rest))]
    exact ih best c fun u hu => h u (List.mem_cons_of_mem t hu)

lemma selectBestTebAux_found (l : List TebCandidate) :
    ∀ (best : Option TebCandidate) (c : WithTop ℝ),
      (∃ t ∈ l, (tebCost t : WithTop ℝ) < c) →
      ∃ i : Fin l.length,
        selectBestTebAux l best c = some (l.get i) ∧
        ((tebCost (l.get i) : WithTop ℝ) < c) ∧
        (∀ j : Fin l.length, tebCost (l.get i) ≤ tebCost (l.get j)) ∧
        (∀ j : Fin l.length, (j : ℕ) < (i : ℕ) →
          tebCost (l.get i) < tebCost (l.get j)) := by
  induction l with
  | nil => intro best c h; rcases h with ⟨t, ht, _⟩; cases ht
  | cons t rest ih =>
    intro best c hex
    unfold selectBestTebAux
    by_cases h : (tebCost t : WithTop ℝ) < c
    · rw [if_pos h]
      by_cases hrest : ∃ u ∈ rest, (tebCost u : WithTop ℝ) < (tebCost t : ℝ)
      · rcases ih (some t) (tebCost t) hrest with ⟨i, heq, hlt, hmin, hstrict⟩
        refine ⟨i.succ, ?_, ?_, ?_, ?_⟩
        · simpa using heq
        · exact lt_trans (by simpa using hlt) h
        · intro j
          induction j using Fin.cases with
          | zero =>
            simpa using le_of_lt (WithTop.coe_lt_coe.mp hlt)
          | succ k => simpa using hmin k
        · intro j hj
          induction j using Fin.cases with
          | zero => simpa using WithTop.coe_lt_coe.mp hlt
          | succ k =>
            have : (k : ℕ) < (i : ℕ) := by simpa using hj
            simpa using hstrict k this
      · push_neg at hrest
        rw [selectBestTebAux_stop rest (some t) (tebCost t)
          fun u hu => not_lt.mpr (hrest u hu)]
        refine ⟨⟨0, by simp⟩, rfl, h, ?_, ?_⟩
        · intro j
          induction j using Fin.cases with
          | zero => exact le_refl _
          | succ k =>
            have := hrest (rest.get k) (rest.get_mem _ _)
            simpa using WithTop.coe_le_coe.mp this
        · intro j hj
          exact absurd hj (by simp)
    · rw [if_neg h]
      have hex' : ∃ u ∈ rest, (tebCost u : WithTop ℝ) < c := by
        rcases hex with ⟨u, hu, hlt⟩
        rcases List.mem_cons.mp hu with rfl | hu'
        · exact absurd hlt h
        · exact ⟨u, hu', hlt⟩
      rcases ih best c hex' with ⟨i, heq, hlt, hmin, hstrict⟩
      refine ⟨i.succ, by simpa using heq, by simpa using hlt, ?_, ?_⟩
      · intro j
        induction j using Fin.cases with
        | zero =>
          have : (tebCost (rest.get i) : WithTop ℝ) < (tebCost t : ℝ) :=
            lt_of_lt_of_le hlt (not_lt.mp h)
          simpa using le_of_lt (WithTop.coe_lt_coe.mp this)
        | succ k => simpa using hmin k
      · intro j hj
        induction j using Fin.cases with
        | zero =>
          have : (tebCost (rest.get i) : WithTop ℝ) < (tebCost t : ℝ) :=
            lt_of_lt_of_le hlt (not_lt.mp h)
          simpa using WithTop.coe_lt_coe.mp this
        | succ k =>
          have : (k : ℕ) < (i : ℕ) := by simpa using hj
          simpa using hstrict k this

/-! ### Detour-cleanup lemmas -/

lemma deleteTebDetoursAux_prefix (threshold : ℝ) (l : List TebCandidate) :
    ∀ kept : List TebCandidate,
      ∃ s, deleteTebDetoursAux threshold kept l = kept ++ s := by
  induction l with
  | nil => intro kept; exact ⟨[], (List.append_nil kept).symm⟩
  | cons t rest ih =>
    intro kept
    unfold deleteTebDetoursAux
    rcases hc : (decide (kept.length + 1 + rest.length > 1) &&
        t.detectDetoursBackwards threshold) with _ | _
    · rw [if_neg (by simp [hc])]
      rcases ih (kept ++ [t]) with ⟨s, hs⟩
      exact ⟨[t] ++ s, by rw [hs, List.append_assoc]⟩
    · rw [if_pos (by simp [hc])]
      exact ih kept

lemma deleteTebDetoursAux_nil_ne_nil (threshold : ℝ) (l : List TebCandidate) :
    l ≠ [] → deleteTebDetoursAux threshold [] l ≠ [] := by
  induction l with
  | nil => intro h; exact absurd rfl h
  | cons t rest ih =>
    intro _
    unfold deleteTebDetoursAux
    rcases hc : (decide (List.length [] + 1 + rest.length > 1) &&
        t.detectDetoursBackwards threshold) with _ | _
    · rw [if_neg (by simp [hc])]
      rcases deleteTebDetoursAux_prefix threshold rest [t] with ⟨s, hs⟩
      rw [List.nil_append, hs]
      simp
    · rw [if_pos (by simp [hc])]
      have hc' := hc
      rw [Bool.and_eq_true] at hc'
      have hlen : List.length ([] : List TebCandidate) + 1 + rest.length > 1 :=
        of_decide_eq_true hc'.1
      have hne : rest ≠ [] := by
        intro hnil
        rw [hnil] at hlen
        simp at hlen
      exact ih hne

/-! ### Claim C1 -/

/-- C1: `selectBestTeb` stores and returns the candidate with minimal summed
cost; ties go to the candidate earliest in the pool; for an empty pool the
best candidate is `none`. -/
theorem c1_selectBestTeb_spec (s : PlannerState) :
    ((selectBestTeb s).1.best_teb = (selectBestTeb s).2) ∧
    (s.tebs = [] → (selectBestTeb s).2 = none) ∧
    (s.tebs ≠ [] →
      ∃ i : Fin s.tebs.length,
        (selectBestTeb s).2 = some (s.tebs.get i) ∧
        (∀ j : Fin s.tebs.length,
          tebCost (s.tebs.get i) ≤ tebCost (s.tebs.get j)) ∧
        (∀ j : Fin s.tebs.length, (j : ℕ) < (i : ℕ) →
          tebCost (s.tebs.get i) < tebCost (s.tebs.get j))) := by
  refine ⟨rfl, ?_, ?_⟩
  · intro h
    simp [selectBestTeb, selectBestTebList, h, selectBestTebAux]
  · intro h
    rcases List.exists_mem_of_ne_nil s.tebs h with ⟨t, ht⟩
    have hex : ∃ u ∈ s.tebs, (tebCost u : WithTop ℝ) < (⊤ : WithTop ℝ) :=
      ⟨t, ht, WithTop.coe_lt_top _⟩
    rcases selectBestTebAux_found s.tebs none ⊤ hex with
      ⟨i, heq, _, hmin, hstrict⟩
    exact ⟨i, heq, hmin, hstrict⟩

/-- C1 witness: on a concrete two-candidate pool the hypothesis of the
non-empty case holds and the selection facts follow. -/
theorem c1_witness :
    ([⟨[5], fun _ => false, [], fun _ => 0, (0, 0)⟩,
      ⟨[3], fun _ => false, [], fun _ => 0, (0, 0)⟩] ≠
        ([] : List TebCandidate)) ∧
    (∃ i : Fin ((PlannerState.mk true
        [⟨[5], fun _ => false, [], fun _ => 0, (0, 0)⟩,
         ⟨[3], fun _ => false, [], fun _ => 0, (0, 0)⟩] [] none).tebs.length),
      (selectBestTeb (PlannerState.mk true
        [⟨[5], fun _ => false, [], fun _ => 0, (0, 0)⟩,
         ⟨[3], fun _ => false, [], fun _ => 0, (0, 0)⟩] [] none)).2 =
        some ((PlannerState.mk true
        [⟨[5], fun _ => false, [], fun _ => 0, (0, 0)⟩,
         ⟨[3], fun _ => false, [], fun _ => 0, (0, 0)⟩] [] none).tebs.get i)) := by
  constructor
  · simp
  · rcases (c1_selectBestTeb_spec (PlannerState.mk true
      [⟨[5], fun _ => false, [], fun _ => 0, (0, 0)⟩,
       ⟨[3], fun _ => false, [], fun _ => 0, (0, 0)⟩] [] none)).2.2
      (by simp) with ⟨i, heq, _, _⟩
    exact ⟨i, heq⟩

/-! ### Claim C6 -/

/-- C6: `deleteTebDetours` never empties a non-empty pool, and a sole
remaining candidate is retained even when it is a backwards detour. -/
theorem c6_deleteTebDetours_never_empties (threshold : ℝ)
    (tebs : List TebCandidate) :
    (tebs ≠ [] → deleteTebDetoursList threshold tebs ≠ []) ∧
    (∀ t : TebCandidate, deleteTebDetoursList threshold [t] = [t]) := by
  constructor
  · intro h
    exact deleteTebDetoursAux_nil_ne_nil threshold tebs h
  · intro t
    simp [deleteTebDetoursList, deleteTebDetoursAux]

/-- C6 witness: a sole candidate that is a backwards detour at every
threshold survives the cleanup. -/
theorem c6_witness :
    ([(⟨[], fun _ => true, [], fun _ => 0, (0, 0)⟩ : TebCandidate)] ≠ []) ∧
    deleteTebDetoursList 0
      [⟨[], fun _ => true, [], fun _ => 0, (0, 0)⟩] ≠ [] := by
  refine ⟨by simp, ?_⟩
  exact (c6_deleteTebDetours_never_empties 0
    [⟨[], fun _ => true, [], fun _ => 0, (0, 0)⟩]).1 (by simp)

/-! ### Claim C4 -/

/-- C4: `addNewHSignatureIfNew(H, threshold)` returns `true` and appends `H`
to the registry exactly when no retained signature is within `threshold` of
`H` in both the real and the imaginary part simultaneously; when such a
signature exists it returns `false` and the registry is unchanged. -/
theorem c4_addNewHSignatureIfNew_spec (sigs : List HSig) (H : HSig)
    (threshold : ℝ) :
    ((addNewHSignatureIfNew sigs H threshold).2 = true ↔
      ∀ s ∈ sigs,
        ¬(|s.re - H.re| ≤ threshold ∧ |s.im - H.im| ≤ threshold)) ∧
    ((addNewHSignatureIfNew sigs H threshold).2 = true →
      (addNewHSignatureIfNew sigs H threshold).1 = sigs ++ [H]) ∧
    ((addNewHSignatureIfNew sigs H threshold).2 = false →
      (addNewHSignatureIfNew sigs H threshold).1 = sigs) := by
  rcases hany : (sigs.any fun s => hSigClose s H threshold) with _ | _
  · have hres : addNewHSignatureIfNew sigs H threshold = (sigs ++ [H], true) := by
      unfold addNewHSignatureIfNew
      rw [if_neg (by simp [hany])]
    have hclose := (any_hSigClose_iff sigs H threshold).not.mp (by simp [hany])
    push_neg at hclose
    rw [hres]
    refine ⟨?_, fun _ => rfl, fun h => Bool.noConfusion h⟩
    constructor
    · intro _ s hs hcl
      exact absurd hcl.2 (not_le.mpr (hclose s hs hcl.1))
    · intro _; rfl
  · have hres : addNewHSignatureIfNew sigs H threshold = (sigs, false) := by
      unfold addNewHSignatureIfNew
      rw [if_pos hany]
    rw [hres]
    refine ⟨?_, fun h => Bool.noConfusion h, fun _ => rfl⟩
    constructor
    · intro h; exact Bool.noConfusion h
    · intro hall
      exfalso
      rcases (any_hSigClose_iff sigs H threshold).mp hany with ⟨s, hs, hcl⟩
      exact hall s hs hcl

/-- C4 witness: at a concrete registry and signature the call appends and
reports new. -/
theorem c4_witness :
    (addNewHSignatureIfNew [⟨0, 0⟩] ⟨1, 1⟩ (1/10)).2 = true ∧
    (addNewHSignatureIfNew [⟨0, 0⟩] ⟨1, 1⟩ (1/10)).1 = [⟨0, 0⟩, ⟨1, 1⟩] := by
  have hnew : (addNewHSignatureIfNew [⟨0, 0⟩] ⟨1, 1⟩ (1/10)).2 = true := by
    norm_num [addNewHSignatureIfNew, hSigClose]
  exact ⟨hnew, (c4_addNewHSignatureIfNew_spec [⟨0, 0⟩] ⟨1, 1⟩ (1/10)).2.1 hnew⟩

/-! ### Claim C5 -/

/-- C5: after any sequence of `addNewHSignatureIfNew` calls with a fixed
threshold starting from an empty registry, any two retained entries differ
by more than the threshold in the real part or in the imaginary part. -/
theorem c5_registry_pairwise_separated (hs : List HSig) (threshold : ℝ) :
    (runRegistry hs threshold).Pairwise (hSigSeparated threshold) := by
  unfold runRegistry
  exact runRegistry_fold_pairwise hs threshold [] List.Pairwise.nil

/-! ### Claim C7 -/

/-- C7: with no stored best candidate, `getVelocityCommand` returns the zero
velocity vector and `isTrajectoryFeasible` returns `false` for every costmap
oracle, footprint, radii and look-ahead argument. -/
theorem c7_no_best_degrades (s : PlannerState) (h : s.best_teb = none) :
    getVelocityCommand s = (0, 0) ∧
    ∀ (footprintCost : ℝ → ℝ → ℝ → List (ℝ × ℝ × ℝ) → ℝ → ℝ → ℝ)
      (footprint : List (ℝ × ℝ × ℝ)) (inscribedRadius circumscribedRadius : ℝ)
      (lookAhead : ℤ),
      isTrajectoryFeasible footprintCost footprint inscribedRadius
        circumscribedRadius lookAhead s = false := by
  constructor
  · simp [getVelocityCommand, h]
  · intro footprintCost footprint inscribedRadius circumscribedRadius lookAhead
    simp [isTrajectoryFeasible, h]

/-- C7 witness: at a concrete state with no best candidate the degradation
facts hold. -/
theorem c7_witness :
    (PlannerState.mk true [] [] none).best_teb = none ∧
    getVelocityCommand (PlannerState.mk true [] [] none) = (0, 0) := by
  exact ⟨rfl, (c7_no_best_degrades (PlannerState.mk true [] [] none) rfl).1⟩

/-! ### Claim C10 -/

/-- C10: when a best candidate with at least one pose is stored, an
out-of-range `lookAhead` is clamped to the last pose index, an in-range one
is kept, and the feasibility result is `true` exactly when every pose with
index `0..clamped` (that is, `clamped + 1` poses) has non-negative footprint
cost. -/
theorem c10_isTrajectoryFeasible_spec
    (footprintCost : ℝ → ℝ → ℝ → List (ℝ × ℝ × ℝ) → ℝ → ℝ → ℝ)
    (footprint : List (ℝ × ℝ × ℝ)) (inscribedRadius circumscribedRadius : ℝ)
    (lookAhead : ℤ) (s : PlannerState) (t : TebCandidate)
    (hb : s.best_teb = some t) (hn : 0 < t.poses.length) :
    ((lookAhead < 0 ∨ (t.poses.length : ℤ) ≤ lookAhead) →
      clampedLookAhead t lookAhead = (t.poses.length : ℤ) - 1) ∧
    (¬(lookAhead < 0 ∨ (t.poses.length : ℤ) ≤ lookAhead) →
      clampedLookAhead t lookAhead = lookAhead) ∧
    0 ≤ clampedLookAhead t lookAhead ∧
    (isTrajectoryFeasible footprintCost footprint inscribedRadius
        circumscribedRadius lookAhead s = true ↔
      ∀ i ≤ (clampedLookAhead t lookAhead).toNat,
        ¬(footprintCost (t.poses.getD i default).x (t.poses.getD i default).y
            (t.poses.getD i default).theta footprint inscribedRadius
            circumscribedRadius < 0)) := by
  refine ⟨?_, ?_, ?_, ?_⟩
  · intro h
    simp [clampedLookAhead, h]
  · intro h
    simp [clampedLookAhead, h]
  · unfold clampedLookAhead
    by_cases h : lookAhead < 0 ∨ (t.poses.length : ℤ) ≤ lookAhead
    · rw [if_pos h]
      omega
    · rw [if_neg h]
      push_neg at h
      exact h.1
  · rw [isTrajectoryFeasible, hb]
    simp only [List.all_eq_true, List.mem_range, Nat.lt_succ_iff,
      Bool.not_eq_true', decide_eq_false_iff_not]

/-- C10 witness: with a one-pose best candidate and an out-of-range
look-ahead of `5`, the index is clamped to the last pose index `0`. -/
theorem c10_witness :
    (PlannerState.mk true [] []
        (some ⟨[1], fun _ => false, [⟨0, 0, 0⟩], fun _ => 0, (1, 0)⟩)).best_teb
      = some ⟨[1], fun _ => false, [⟨0, 0, 0⟩], fun _ => 0, (1, 0)⟩ ∧
    0 < (TebCandidate.mk [1] (fun _ => false) [⟨0, 0, 0⟩] (fun _ => 0)
        (1, 0)).poses.length ∧
    clampedLookAhead
      ⟨[1], fun _ => false, [⟨0, 0, 0⟩], fun _ => 0, (1, 0)⟩ 5 =
      ((TebCandidate.mk [1] (fun _ => false) [⟨0, 0, 0⟩] (fun _ => 0)
        (1, 0)).poses.length : ℤ) - 1 := by
  refine ⟨rfl, by simp, ?_⟩
  exact (c10_isTrajectoryFeasible_spec (fun _ _ _ _ _ _ => 1) [] 0 0 5
    (PlannerState.mk true [] []
      (some ⟨[1], fun _ => false, [⟨0, 0, 0⟩], fun _ => 0, (1, 0)⟩))
    ⟨[1], fun _ => false, [⟨0, 0, 0⟩], fun _ => 0, (1, 0)⟩
    rfl (by simp)).1 (by norm_num)

/-! ### Depth-first exploration lemmas -/

lemma foldl_preserves {α β : Type} (P : β → Prop) (f : β → α → β)
    (hf : ∀ s a, P s → P (f s a)) :
    ∀ (l : List α) (init : β), P init → P (l.foldl f init) := by
  intro l
  induction l with
  | nil => intro init h; exact h
  | cons a rest ih => intro init h; exact ih (f init a) (hf init a h)

lemma depthFirst_stops (adj : Nat → List Nat) (goal : Nat) (maxClasses : ℤ)
    (hsigOfPath : List Nat → HSig) (mkTeb : List Nat → TebCandidate)
    (fuel : Nat) (visited : List Nat) (st : List TebCandidate × List HSig)
    (h : (st.1.length : ℤ) ≥ maxClasses) :
    DepthFirst adj goal maxClasses hsigOfPath mkTeb fuel visited st = st := by
  cases fuel with
  | zero => rfl
  | succ n =>
    unfold DepthFirst
    rw [if_pos h]

lemma depthFirst_bound (adj : Nat → List Nat) (goal : Nat) (maxClasses : ℤ)
    (hsigOfPath : List Nat → HSig) (mkTeb : List Nat → TebCandidate) :
    ∀ (fuel : Nat) (visited : List Nat)
      (st : List TebCandidate × List HSig),
      (st.1.length : ℤ) ≤ maxClasses →
      (((DepthFirst adj goal maxClasses hsigOfPath mkTeb fuel visited
        st).1.length : ℤ)) ≤ maxClasses := by
  intro fuel
  induction fuel with
  | zero => intro visited st h; exact h
  | succ n ih =>
    intro visited st h
    unfold DepthFirst
    by_cases hg : (st.1.length : ℤ) ≥ maxClasses
    · rw [if_pos hg]
      exact h
    · rw [if_neg hg]
      push_neg at hg
      refine foldl_preserves
        (fun u : List TebCandidate × List HSig =>
          ((u.1.length : ℤ) ≤ maxClasses)) _ ?_ _ _ ?_
      · intro u v hu
        by_cases hv : v ∈ visited ∨ v = goal
        · rw [if_pos hv]
          exact hu
        · rw [if_neg hv]
          exact ih (visited ++ [v]) u hu
      · by_cases hgoal : goal ∈ adj (visited.getLastD 0) ∧ goal ∉ visited
        · rw [if_pos hgoal]
          rcases hr : (addNewHSignatureIfNew st.2
              (hsigOfPath (visited ++ [goal])) (1/10)).2 with _ | _
          · rw [if_neg (by simp)]
            exact h
          · rw [if_pos rfl]
            have : ((st.1.length + 1 : ℕ) : ℤ) ≤ maxClasses := by
              push_cast
              omega
            simpa using this
        · rw [if_neg hgoal]
          exact h

/-! ### Pool-shrinking lemmas of the re-analysis pass -/

lemma renewCollect_length_le (deleteDetours : Bool) (cosThreshold : ℝ)
    (hsigOfTeb : TebCandidate → HSig) (obstacles : List Obstacle) :
    ∀ (pool : List TebCandidate) (acc : List (TebCandidate × HSig)),
      (renewCollect deleteDetours cosThreshold hsigOfTeb obstacles acc
        pool).length ≤ acc.length + pool.length := by
  intro pool
  induction pool with
  | nil => intro acc; simp [renewCollect]
  | cons t rest ih =>
    intro acc
    unfold renewCollect
    rcases hc : (deleteDetours && decide (acc.length + 1 + rest.length > 1) &&
        t.detectDetoursBackwards cosThreshold) with _ | _
    · rw [if_neg (by simp [hc])]
      rcases hb : tebCloseToObstacle obstacles t with _ | _
      · rw [if_neg (by simp [hb])]
        have := ih (acc ++ [(t, hsigOfTeb t)])
        simp only [List.length_append, List.length_singleton] at this
        simp only [List.length_cons]
        omega
      · rw [if_pos (by simp [hb])]
        have := ih acc
        simp only [List.length_cons]
        omega
    · rw [if_pos (by simp [hc])]
      have := ih acc
      simp only [List.length_cons]
      omega

lemma renewDedup_length_le :
    ∀ (fuel : Nat) (cands : List (TebCandidate × HSig)) (i : Nat),
      (renewDedup fuel cands i).length ≤ cands.length := by
  intro fuel
  induction fuel with
  | zero => intro cands i; exact le_refl _
  | succ n ih =>
    intro cands i
    unfold renewDedup
    by_cases hi : i < cands.length
    · rw [dif_pos hi]
      repeat' split
      all_goals
        first
          | exact ih cands (i + 1)
          | exact le_trans (ih _ _) (List.eraseIdx_sublist cands _).length_le
    · rw [dif_neg hi]

lemma renewRegister_length_le (threshold : ℝ) :
    ∀ (cands : List (TebCandidate × HSig)) (sigs : List HSig),
      (renewRegister threshold cands sigs).1.length ≤ cands.length := by
  intro cands
  induction cands with
  | nil => intro sigs; simp [renewRegister]
  | cons c rest ih =>
    intro sigs
    rcases c with ⟨t, H⟩
    unfold renewRegister
    rcases hr : (addNewHSignatureIfNew sigs H threshold).2 with _ | _
    · rw [if_neg (by simp [hr])]
      exact le_trans (ih _) (Nat.le_succ _)
    · rw [if_pos (by simp [hr])]
      simpa using ih (addNewHSignatureIfNew sigs H threshold).1

lemma renewAndAnalyzeOldTebs_length_le (deleteDetours : Bool)
    (obstacleHeadingThreshold hSignatureThreshold : ℝ)
    (hsigOfTeb : TebCandidate → HSig) (obstacles : List Obstacle)
    (tebs : List TebCandidate) :
    (renewAndAnalyzeOldTebs deleteDetours obstacleHeadingThreshold
      hSignatureThreshold hsigOfTeb obstacles tebs).1.length ≤
      tebs.length := by
  unfold renewAndAnalyzeOldTebs
  refine le_trans (renewRegister_length_le _ _ _) ?_
  refine le_trans (renewDedup_length_le _ _ _) ?_
  simpa using renewCollect_length_le deleteDetours
    (Real.cos obstacleHeadingThreshold) hsigOfTeb obstacles tebs []

lemma createGraph_bound (cfg : TebConfig) (env : ExternalEnv)
    (obstacles : List Obstacle) (start goal : PoseSE2) (distToObst : ℝ)
    (limitHeading : Bool) (s : PlannerState)
    (h : (s.tebs.length : ℤ) ≤ cfg.max_number_classes) :
    (((createGraph cfg env obstacles start goal distToObst limitHeading
      s).tebs.length : ℤ)) ≤ cfg.max_number_classes := by
  unfold createGraph
  by_cases hguard : vnorm (vsub (posOf goal) (posOf start)) <
      cfg.xy_goal_tolerance
  · rw [if_pos hguard]
    exact h
  · rw [if_neg hguard]
    exact depthFirst_bound _ _ _ _ _ _ _ _ h

lemma createProbRoadmapGraph_bound (cfg : TebConfig) (env : ExternalEnv)
    (obstacles : List Obstacle) (raw : Nat → ℝ × ℝ) (retryFuel : Nat)
    (start goal : PoseSE2) (distToObst : ℝ) (limitHeading : Bool)
    (s : PlannerState)
    (h : (s.tebs.length : ℤ) ≤ cfg.max_number_classes) :
    (((createProbRoadmapGraph cfg env obstacles raw retryFuel start goal
      distToObst limitHeading s).tebs.length : ℤ)) ≤
      cfg.max_number_classes := by
  unfold createProbRoadmapGraph
  by_cases hguard : vnorm (vsub (posOf goal) (posOf start)) <
      cfg.xy_goal_tolerance
  · rw [if_pos hguard]
    exact h
  · rw [if_neg hguard]
    exact depthFirst_bound _ _ _ _ _ _ _ _ h

/-! ### Claim C2 -/

/-- C2: exploration never grows the pool beyond the configured maximum class
count, and once the pool has reached that maximum `DepthFirst` adds no
candidate and leaves the state unchanged. -/
theorem c2_pool_never_exceeds_max (cfg : TebConfig) (env : ExternalEnv)
    (obstacles : List Obstacle) (raw : Nat → ℝ × ℝ) (retryFuel : Nat)
    (start goal : PoseSE2) (distToObst hpThreshold : ℝ) (s : PlannerState)
    (adj : Nat → List Nat) (goalVertex : Nat) (hsigOfPath : List Nat → HSig)
    (mkTeb : List Nat → TebCandidate) (fuel : Nat) (visited : List Nat)
    (st : List TebCandidate × List HSig) :
    ((s.tebs.length : ℤ) ≤ cfg.max_number_classes →
      (((exploreHomotopyClassesAndInitTebs cfg env obstacles raw retryFuel
        start goal distToObst hpThreshold s).tebs.length : ℤ)) ≤
        cfg.max_number_classes) ∧
    ((st.1.length : ℤ) ≥ cfg.max_number_classes →
      DepthFirst adj goalVertex cfg.max_number_classes hsigOfPath mkTeb fuel
        visited st = st) := by
  constructor
  · intro h
    unfold exploreHomotopyClassesAndInitTebs
    have hrenew : (((renewAndAnalyzeOldTebs false
        cfg.obstacle_heading_threshold cfg.h_signature_threshold
        env.hSignatureOfTeb obstacles s.tebs).1.length : ℤ)) ≤
        cfg.max_number_classes := by
      refine le_trans ?_ h
      exact_mod_cast renewAndAnalyzeOldTebs_length_le false
        cfg.obstacle_heading_threshold cfg.h_signature_threshold
        env.hSignatureOfTeb obstacles s.tebs
    by_cases hexp : cfg.simple_exploration = true
    · rw [if_pos hexp]
      exact createGraph_bound _ _ _ _ _ _ _ _ hrenew
    · rw [if_neg hexp]
      exact createProbRoadmapGraph_bound _ _ _ _ _ _ _ _ _ _ hrenew
  · intro h
    exact depthFirst_stops adj goalVertex cfg.max_number_classes hsigOfPath
      mkTeb fuel visited st h

/-- C2 witness: with a one-class budget, exploration from an empty pool
keeps the pool within the budget, and a pool already at the budget is left
untouched by the depth-first search. -/
theorem c2_witness :
    (((PlannerState.mk true [] [] none).tebs.length : ℤ) ≤
      demoCfg.max_number_classes ∧
      (((exploreHomotopyClassesAndInitTebs demoCfg demoEnv []
        (fun _ => (0, 0)) 0 ⟨0, 0, 0⟩ ⟨1, 0, 0⟩ 1 (1/10)
        (PlannerState.mk true [] [] none)).tebs.length : ℤ)) ≤
        demoCfg.max_number_classes) ∧
    ((([demoTeb], ([] : List HSig)).1.length : ℤ) ≥
        demoCfg.max_number_classes ∧
      DepthFirst (fun _ => []) 0 demoCfg.max_number_classes (fun _ => ⟨0, 0⟩)
        (fun _ => demoTeb) 1 [0] ([demoTeb], []) = ([demoTeb], [])) := by
  have h1 : ((PlannerState.mk true [] [] none).tebs.length : ℤ) ≤
      demoCfg.max_number_classes := by
    simp [demoCfg]
  have h2 : (([demoTeb], ([] : List HSig)).1.length : ℤ) ≥
      demoCfg.max_number_classes := by
    simp [demoCfg]
  exact ⟨⟨h1, (c2_pool_never_exceeds_max demoCfg demoEnv []
      (fun _ => (0, 0)) 0 ⟨0, 0, 0⟩ ⟨1, 0, 0⟩ 1 (1/10)
      (PlannerState.mk true [] [] none) (fun _ => []) 0 (fun _ => ⟨0, 0⟩)
      (fun _ => demoTeb) 1 [0] ([demoTeb], [])).1 h1⟩,
    ⟨h2, (c2_pool_never_exceeds_max demoCfg demoEnv []
      (fun _ => (0, 0)) 0 ⟨0, 0, 0⟩ ⟨1, 0, 0⟩ 1 (1/10)
      (PlannerState.mk true [] [] none) (fun _ => []) 0 (fun _ => ⟨0, 0⟩)
      (fun _ => demoTeb) 1 [0] ([demoTeb], [])).2 h2⟩⟩

/-! ### Membership lemmas of the re-analysis pass -/

lemma renewCollect_false_eq_filter (cosThreshold : ℝ)
    (hsigOfTeb : TebCandidate → HSig) (obstacles : List Obstacle) :
    ∀ (pool : List TebCandidate) (acc : List (TebCandidate × HSig)),
      renewCollect false cosThreshold hsigOfTeb obstacles acc pool =
        acc ++ (pool.filter
          (fun t => !tebCloseToObstacle obstacles t)).map
            (fun t => (t, hsigOfTeb t)) := by
  intro pool
  induction pool with
  | nil => intro acc; simp [renewCollect]
  | cons t rest ih =>
    intro acc
    unfold renewCollect
    rw [if_neg (by simp)]
    rcases hb : tebCloseToObstacle obstacles t with _ | _
    · rw [if_neg (by simp)]
      rw [ih (acc ++ [(t, hsigOfTeb t)])]
      simp [List.filter_cons, hb]
    · rw [if_pos rfl]
      rw [ih acc]
      simp [List.filter_cons, hb]

lemma renewCollect_mem (deleteDetours : Bool) (cosThreshold : ℝ)
    (hsigOfTeb : TebCandidate → HSig) (obstacles : List Obstacle) :
    ∀ (pool : List TebCandidate) (acc : List (TebCandidate × HSig))
      (pair : TebCandidate × HSig),
      pair ∈ renewCollect deleteDetours cosThreshold hsigOfTeb obstacles acc
        pool →
      pair ∈ acc ∨ tebCloseToObstacle obstacles pair.1 = false := by
  intro pool
  induction pool with
  | nil =>
    intro acc pair h
    rw [renewCollect] at h
    exact Or.inl h
  | cons t rest ih =>
    intro acc pair h
    rw [renewCollect] at h
    by_cases hc : (deleteDetours &&
        decide (acc.length + 1 + rest.length > 1) &&
        t.detectDetoursBackwards cosThreshold) = true
    · rw [if_pos hc] at h
      exact ih acc pair h
    · rw [if_neg hc] at h
      by_cases hb : tebCloseToObstacle obstacles t = true
      · rw [if_pos hb] at h
        exact ih acc pair h
      · rw [if_neg hb] at h
        rcases ih (acc ++ [(t, hsigOfTeb t)]) pair h with hmem | hnear
        · rcases List.mem_append.mp hmem with h1 | h2
          · exact Or.inl h1
          · rw [List.mem_singleton] at h2
            right
            rw [h2]
            simpa using hb
        · exact Or.inr hnear

lemma renewDedup_subset :
    ∀ (fuel : Nat) (cands : List (TebCandidate × HSig)) (i : Nat)
      (c : TebCandidate × HSig), c ∈ renewDedup fuel cands i → c ∈ cands := by
  intro fuel
  induction fuel with
  | zero => intro cands i c hc; exact hc
  | succ n ih =>
    intro cands i c hc
    unfold renewDedup at hc
    by_cases hi : i < cands.length
    · rw [dif_pos hi] at hc
      repeat' split at hc
      all_goals
        first
          | exact ih cands (i + 1) c hc
          | exact (List.eraseIdx_sublist cands _).subset (ih _ _ c hc)
    · rw [dif_neg hi] at hc
      exact hc

lemma renewRegister_fst_mem (threshold : ℝ) :
    ∀ (cands : List (TebCandidate × HSig)) (sigs : List HSig)
      (t : TebCandidate), t ∈ (renewRegister threshold cands sigs).1 →
      ∃ H : HSig, (t, H) ∈ cands := by
  intro cands
  induction cands with
  | nil =>
    intro sigs t ht
    rw [renewRegister] at ht
    cases ht
  | cons c rest ih =>
    intro sigs t ht
    rcases c with ⟨u, H⟩
    rw [renewRegister] at ht
    by_cases hr : (addNewHSignatureIfNew sigs H threshold).2 = true
    · rw [if_pos hr] at ht
      rcases List.mem_cons.mp ht with rfl | ht'
      · exact ⟨H, List.mem_cons_self _ _⟩
      · rcases ih _ t ht' with ⟨H', hH'⟩
        exact ⟨H', List.mem_cons_of_mem _ hH'⟩
    · rw [if_neg hr] at ht
      rcases ih _ t ht with ⟨H', hH'⟩
      exact ⟨H', List.mem_cons_of_mem _ hH'⟩

/-! ### Claim C3 -/

/-- C3 counterexample: as invoked from `exploreHomotopyClassesAndInitTebs`
the re-analysis runs with `delete_detours = false`, so a sole candidate that
reports a backwards detour at every threshold survives the pass (start and
goal coincide here, so the cycle builds no graph and the pool after
exploration is exactly the re-analysis output). -/
theorem c3_counterexample :
    (exploreHomotopyClassesAndInitTebs demoCfg demoEnv [] (fun _ => (0, 0)) 0
      ⟨0, 0, 0⟩ ⟨0, 0, 0⟩ 1 (1/10)
      (PlannerState.mk true [demoDetourTeb] [] none)).tebs.length = 1 ∧
    ((exploreHomotopyClassesAndInitTebs demoCfg demoEnv [] (fun _ => (0, 0)) 0
      ⟨0, 0, 0⟩ ⟨0, 0, 0⟩ 1 (1/10)
      (PlannerState.mk true [demoDetourTeb] [] none)).tebs.all
        (fun t => t.detectDetoursBackwards
          (Real.cos demoCfg.obstacle_heading_threshold))) = true := by
  have hcollect : renewCollect false
      (Real.cos demoCfg.obstacle_heading_threshold)
      demoEnv.hSignatureOfTeb [] [] [demoDetourTeb] =
      [(demoDetourTeb, ⟨0, 0⟩)] := by
    rw [renewCollect_false_eq_filter]
    simp [tebCloseToObstacle, demoEnv]
  have hdedup : renewDedup 3 [(demoDetourTeb, ⟨0, 0⟩)] 0 =
      [(demoDetourTeb, ⟨0, 0⟩)] := by
    unfold renewDedup
    rw [dif_pos (by simp)]
    have hfind : List.findIdx?
        (fun c : TebCandidate × HSig => compareH c.2
          (([(demoDetourTeb, (⟨0, 0⟩ : HSig))].get ⟨0, by simp⟩).2))
        [(demoDetourTeb, ⟨0, 0⟩)] = some 0 := by
      have hcmp : compareH (⟨0, 0⟩ : HSig) (⟨0, 0⟩ : HSig) = true := by
        simp [compareH]
      simp [List.findIdx?_cons, hcmp]
    rw [hfind]
    show renewDedup 2 [(demoDetourTeb, (⟨0, 0⟩ : HSig))] (0 + 1) =
      [(demoDetourTeb, ⟨0, 0⟩)]
    rw [renewDedup]
    rw [dif_neg (by simp)]
  have hreg : (renewRegister demoCfg.h_signature_threshold
      [(demoDetourTeb, ⟨0, 0⟩)] []).1 = [demoDetourTeb] := by
    rw [renewRegister]
    rw [if_pos (by simp [addNewHSignatureIfNew])]
    simp [renewRegister]
  have hrenew : (renewAndAnalyzeOldTebs false
      demoCfg.obstacle_heading_threshold demoCfg.h_signature_threshold
      demoEnv.hSignatureOfTeb [] [demoDetourTeb]).1 = [demoDetourTeb] := by
    unfold renewAndAnalyzeOldTebs
    rw [hcollect]
    rw [show (2 * [(demoDetourTeb, (⟨0, 0⟩ : HSig))].length + 1) = 3 from
      rfl]
    rw [hdedup]
    exact hreg
  have hguard : vnorm (vsub (posOf (⟨0, 0, 0⟩ : PoseSE2))
      (posOf (⟨0, 0, 0⟩ : PoseSE2))) < demoCfg.xy_goal_tolerance := by
    have hz : vnorm (vsub (posOf (⟨0, 0, 0⟩ : PoseSE2))
        (posOf (⟨0, 0, 0⟩ : PoseSE2))) = 0 := by
      simp [vnorm, vsub, posOf]
    rw [hz]
    show (0 : ℝ) < 1
    norm_num
  have hexp : (exploreHomotopyClassesAndInitTebs demoCfg demoEnv []
      (fun _ => (0, 0)) 0 ⟨0, 0, 0⟩ ⟨0, 0, 0⟩ 1 (1/10)
      (PlannerState.mk true [demoDetourTeb] [] none)).tebs =
      [demoDetourTeb] := by
    simp only [exploreHomotopyClassesAndInitTebs]
    rw [if_pos (show demoCfg.simple_exploration = true from rfl)]
    simp only [createGraph]
    rw [if_pos hguard]
    exact hrenew
  constructor
  · rw [hexp]
    rfl
  · rw [hexp]
    simp [demoDetourTeb]

/-- C3 (amended): as invoked from `exploreHomotopyClassesAndInitTebs` the
re-analysis runs with `delete_detours = false`, so its candidate-erasing
first loop is exactly the near-collision clearance filter and drops no
backwards detour; in every invocation each candidate whose trajectory
passes within the fixed clearance `0.03` of some obstacle's nearest
projected point is dropped, and no surviving candidate of the pass is
within that clearance. -/
theorem c3_renew_drops_only_clearance
    (cosThreshold obstacleHeadingThreshold hSignatureThreshold : ℝ)
    (hsigOfTeb : TebCandidate → HSig) (obstacles : List Obstacle) :
    (∀ (pool : List TebCandidate) (acc : List (TebCandidate × HSig)),
      renewCollect false cosThreshold hsigOfTeb obstacles acc pool =
        acc ++ (pool.filter
          (fun t => !tebCloseToObstacle obstacles t)).map
            (fun t => (t, hsigOfTeb t))) ∧
    (∀ (deleteDetours : Bool) (pool : List TebCandidate),
      ((renewAndAnalyzeOldTebs deleteDetours obstacleHeadingThreshold
        hSignatureThreshold hsigOfTeb obstacles pool).1.all
          (fun t => !tebCloseToObstacle obstacles t)) = true) := by
  constructor
  · intro pool acc
    exact renewCollect_false_eq_filter cosThreshold hsigOfTeb obstacles pool
      acc
  · intro deleteDetours pool
    rw [List.all_eq_true]
    intro t ht
    unfold renewAndAnalyzeOldTebs at ht
    rcases renewRegister_fst_mem _ _ _ _ ht with ⟨H, hH⟩
    have hmem := renewDedup_subset _ _ _ _ hH
    rcases renewCollect_mem deleteDetours
        (Real.cos obstacleHeadingThreshold) hsigOfTeb obstacles _ _ _ hmem
      with hfalse | hnear
    · cases hfalse
    · simpa using hnear

/-! ### Keypoint geometry evaluations -/

lemma vnorm_ten_zero : vnorm ((10 : ℝ), (0 : ℝ)) = 10 := by
  unfold vnorm
  rw [show ((10 : ℝ) * 10 + 0 * 0) = 10 ^ 2 by norm_num]
  exact Real.sqrt_sq (by norm_num)

lemma vnorm_neg_five_zero : vnorm ((-5 : ℝ), (0 : ℝ)) = 5 := by
  unfold vnorm
  rw [show ((-5 : ℝ) * (-5) + 0 * 0) = 5 ^ 2 by norm_num]
  exact Real.sqrt_sq (by norm_num)

lemma vnorm_five_zero : vnorm ((5 : ℝ), (0 : ℝ)) = 5 := by
  unfold vnorm
  rw [show ((5 : ℝ) * 5 + 0 * 0) = 5 ^ 2 by norm_num]
  exact Real.sqrt_sq (by norm_num)

lemma demo_diff_eq : vsub (posOf (⟨10, 0, 0⟩ : PoseSE2))
    (posOf (⟨0, 0, 0⟩ : PoseSE2)) = ((10 : ℝ), (0 : ℝ)) := by
  simp [vsub, posOf]

lemma demo_diffUnit_eq :
    graphDiffUnit (⟨0, 0, 0⟩ : PoseSE2) (⟨10, 0, 0⟩ : PoseSE2) =
      ((1 : ℝ), (0 : ℝ)) := by
  unfold graphDiffUnit
  rw [demo_diff_eq]
  unfold vnormalize
  rw [vnorm_ten_zero]
  norm_num

/-! ### Claim C8 -/

/-- C8 counterexample: an obstacle behind the start (projection onto the
start-to-goal direction below the `0.1` threshold) receives zero keypoint
vertices, not two: with start `(0,0)`, goal `(10,0)` and the obstacle at
`(-5,0)` the graph holds only the start and goal vertices. -/
theorem c8_counterexample :
    createGraphKeypoints ⟨0, 0, 0⟩ ⟨10, 0, 0⟩ 1 ((-5 : ℝ), (0 : ℝ)) = [] ∧
    createGraphVertices (1/5) ⟨0, 0, 0⟩ ⟨10, 0, 0⟩ 1
      [((-5 : ℝ), (0 : ℝ))] = [((0 : ℝ), (0 : ℝ)), ((10 : ℝ), (0 : ℝ))] := by
  have hbehind : obstacleBehindStart (posOf (⟨0, 0, 0⟩ : PoseSE2))
      (graphDiffUnit (⟨0, 0, 0⟩ : PoseSE2) (⟨10, 0, 0⟩ : PoseSE2))
      ((-5 : ℝ), (0 : ℝ)) := by
    rw [demo_diffUnit_eq]
    unfold obstacleBehindStart
    have hsub : vsub ((-5 : ℝ), (0 : ℝ)) (posOf (⟨0, 0, 0⟩ : PoseSE2)) =
        ((-5 : ℝ), (0 : ℝ)) := by
      simp [vsub, posOf]
    rw [hsub, vnorm_neg_five_zero]
    constructor
    · norm_num
    · unfold vdot
      norm_num
  have hkp : createGraphKeypoints ⟨0, 0, 0⟩ ⟨10, 0, 0⟩ 1
      ((-5 : ℝ), (0 : ℝ)) = [] := by
    unfold createGraphKeypoints obstacleKeypoints
    rw [if_pos hbehind]
  refine ⟨hkp, ?_⟩
  unfold createGraphVertices
  rw [if_neg (by rw [demo_diff_eq, vnorm_ten_zero]; norm_num)]
  simp [posOf, hkp]

/-- C8 (amended): when start and goal are farther apart than the goal
tolerance, every obstacle lying forward of the start (projection onto the
start-to-goal direction at least the `0.1` threshold) receives exactly the
two keypoint vertices centroid ± the clearance-scaled normal, and both
appear in the built graph; obstacles behind the start receive none. -/
theorem c8_forward_obstacles_get_two_keypoints (start goal : PoseSE2)
    (distToObst xyGoalTolerance : ℝ) (centroids : List (ℝ × ℝ)) (c : ℝ × ℝ)
    (hguard : ¬(vnorm (vsub (posOf goal) (posOf start)) < xyGoalTolerance))
    (hfwd : ¬ obstacleBehindStart (posOf start) (graphDiffUnit start goal) c)
    (hc : c ∈ centroids) :
    createGraphKeypoints start goal distToObst c =
      [vadd c (graphNormal start goal distToObst),
        vsub c (graphNormal start goal distToObst)] ∧
    vadd c (graphNormal start goal distToObst) ∈
      createGraphVertices xyGoalTolerance start goal distToObst centroids ∧
    vsub c (graphNormal start goal distToObst) ∈
      createGraphVertices xyGoalTolerance start goal distToObst centroids := by
  have hkp : createGraphKeypoints start goal distToObst c =
      [vadd c (graphNormal start goal distToObst),
        vsub c (graphNormal start goal distToObst)] := by
    unfold createGraphKeypoints obstacleKeypoints
    rw [if_neg hfwd]
  refine ⟨hkp, ?_, ?_⟩
  · unfold createGraphVertices
    rw [if_neg hguard]
    apply List.mem_cons_of_mem
    apply List.mem_append_left
    rw [List.mem_flatMap]
    exact ⟨c, hc, by rw [hkp]; simp⟩
  · unfold createGraphVertices
    rw [if_neg hguard]
    apply List.mem_cons_of_mem
    apply List.mem_append_left
    rw [List.mem_flatMap]
    exact ⟨c, hc, by rw [hkp]; simp⟩

/-- C8 witness: at start `(0,0)`, goal `(10,0)`, clearance `1` the obstacle
at `(5,0)` is forward of the start and receives exactly its two keypoint
vertices. -/
theorem c8_witness :
    (¬(vnorm (vsub (posOf (⟨10, 0, 0⟩ : PoseSE2))
      (posOf (⟨0, 0, 0⟩ : PoseSE2))) < 1/5)) ∧
    (¬ obstacleBehindStart (posOf (⟨0, 0, 0⟩ : PoseSE2))
      (graphDiffUnit (⟨0, 0, 0⟩ : PoseSE2) (⟨10, 0, 0⟩ : PoseSE2))
      ((5 : ℝ), (0 : ℝ))) ∧
    createGraphKeypoints ⟨0, 0, 0⟩ ⟨10, 0, 0⟩ 1 ((5 : ℝ), (0 : ℝ)) =
      [vadd ((5 : ℝ), (0 : ℝ))
          (graphNormal (⟨0, 0, 0⟩ : PoseSE2) (⟨10, 0, 0⟩ : PoseSE2) 1),
        vsub ((5 : ℝ), (0 : ℝ))
          (graphNormal (⟨0, 0, 0⟩ : PoseSE2) (⟨10, 0, 0⟩ : PoseSE2) 1)] := by
  have hguard : ¬(vnorm (vsub (posOf (⟨10, 0, 0⟩ : PoseSE2))
      (posOf (⟨0, 0, 0⟩ : PoseSE2))) < 1/5) := by
    rw [demo_diff_eq, vnorm_ten_zero]
    norm_num
  have hfwd : ¬ obstacleBehindStart (posOf (⟨0, 0, 0⟩ : PoseSE2))
      (graphDiffUnit (⟨0, 0, 0⟩ : PoseSE2) (⟨10, 0, 0⟩ : PoseSE2))
      ((5 : ℝ), (0 : ℝ)) := by
    rw [demo_diffUnit_eq]
    unfold obstacleBehindStart
    have hsub : vsub ((5 : ℝ), (0 : ℝ)) (posOf (⟨0, 0, 0⟩ : PoseSE2)) =
        ((5 : ℝ), (0 : ℝ)) := by
      simp [vsub, posOf]
    rw [hsub, vnorm_five_zero]
    intro h
    have := h.2
    unfold vdot at this
    norm_num at this
  exact ⟨hguard, hfwd,
    (c8_forward_obstacles_get_two_keypoints ⟨0, 0, 0⟩ ⟨10, 0, 0⟩ 1 (1/5)
      [((5 : ℝ), (0 : ℝ))] ((5 : ℝ), (0 : ℝ)) hguard hfwd
      (List.mem_singleton.mpr rfl)).1⟩

/-! ### Claim C9 -/

/-- C9: for every initialized planner and every input, `plan` reaches its
single `return true`; the boolean result never reports failure, whatever
the exploration, optimization and selection passes did to the pool. -/
theorem c9_plan_returns_true (cfg : TebConfig) (env : ExternalEnv)
    (obstacles : List Obstacle) (raw : Nat → ℝ × ℝ) (retryFuel : Nat)
    (start goal : PoseSE2) (startVelocity : ℝ × ℝ) (freeGoalVel : Bool)
    (s : PlannerState) (h : s.initialized = true) :
    ∃ s' : PlannerState,
      plan cfg env obstacles raw retryFuel start goal startVelocity
        freeGoalVel s = some (s', true) := by
  unfold plan
  rw [if_pos h]
  exact ⟨_, rfl⟩

/-- C9 witness: a concrete initialized planner returns `true`. -/
theorem c9_witness :
    (PlannerState.mk true [] [] none).initialized = true ∧
    ∃ s' : PlannerState,
      plan demoCfg demoEnv [] (fun _ => (0, 0)) 0 ⟨0, 0, 0⟩ ⟨1, 0, 0⟩ (0, 0)
        false (PlannerState.mk true [] [] none) = some (s', true) :=
  ⟨rfl, c9_plan_returns_true demoCfg demoEnv [] (fun _ => (0, 0)) 0
    ⟨0, 0, 0⟩ ⟨1, 0, 0⟩ (0, 0) false (PlannerState.mk true [] [] none) rfl⟩

end TebHcp
